import Mathlib

/-!
Shallow embedding of `src/utils/index.js`, a staking reward and penalty
calculator built on the JavaScript `big-integer` library, together with
proofs about its behaviour.

Modelling conventions:
* big-integer amounts are modelled as `ℕ`: every value the code builds is
  non-negative, and `big-integer` division truncates, which on non-negative
  operands agrees with `Nat` floor division;
* day counters are plain JavaScript numbers in the source; they stay
  integral everywhere except `penaltyDays`, which JavaScript computes with
  floating-point division (`stakedDays / 2`), so day-valued quantities that
  can become fractional are modelled as `ℚ`;
* exceptions thrown by the JavaScript runtime or by `big-integer` are
  modelled with `Except JsError`.
-/

namespace WalletUtils

/-- Errors the JavaScript code can raise at runtime. -/
inductive JsError where
  /-- big-integer `.div` throws `Error("Cannot divide by zero")`. -/
  | divisionByZero
  /-- reading a property such as `.dayPayoutTotal` off `undefined`, i.e.
  after an array access at a negative, fractional or out-of-range index. -/
  | typeError
  /-- big-integer rejects a fractional JavaScript number operand with
  `Error("... is not an integer.")`. -/
  | notAnInteger
  deriving DecidableEq

/-- One decoded day of aggregate data (an element of the array produced by
`Utils.processDailyRangeData`). -/
structure DailyRecord where
  dayStakeSharesTotal : ℕ
  dayPayoutTotal : ℕ
  deriving DecidableEq

/-- The caller-supplied stake position (`st` in `Utils.calcStakeReturn`). -/
structure StakeRecord where
  pooledDay : ℕ
  stakedDays : ℕ
  unpooledDay : ℕ
  stakeShares : ℕ
  stakedHearts : ℕ

/-- Decoding of one packed 256-bit value, the body of the `map` inside
`Utils.processDailyRangeData`: the high 128 bits (`shiftRight(128)`) are the
share total, the low 128 bits (`and(2^128 - 1)`) the payout total. -/
def decodeDay (raw : ℕ) : DailyRecord :=
  { dayStakeSharesTotal := raw >>> 128
    dayPayoutTotal := raw &&& (2 ^ 128 - 1) }

/-- JS `Utils.processDailyRangeData`: element-wise decoding of the packed
daily values. -/
def processDailyRangeData (data : List ℕ) : List DailyRecord :=
  data.map decodeDay

/-- An array access `dailyData[day]` followed by a property read.
JavaScript yields `undefined` for a negative, fractional or out-of-range
index, and the subsequent property access throws a `TypeError`.  The index
is usable exactly when it is a non-negative integer (`⌊day⌋ = day` with
`0 ≤ day`) below the array length. -/
def getDay (dailyData : List DailyRecord) (day : ℚ) : Except JsError DailyRecord :=
  if h : 0 ≤ day ∧ (⌊day⌋ : ℚ) = day ∧ (⌊day⌋).toNat < dailyData.length then
    .ok (dailyData.get ⟨(⌊day⌋).toNat, h.2.2⟩)
  else
    .error .typeError

/-- big-integer `.div`: truncating division, throwing on a zero divisor.
On the non-negative values this code manipulates, truncation is floor. -/
def bigDiv (a b : ℕ) : Except JsError ℕ :=
  if b = 0 then .error .divisionByZero else .ok (a / b)

/-- big-integer `.mul` applied to a JavaScript number operand: throws when
the operand is not an integer (`v !== truncate(v)`, equivalently
`⌊v⌋ ≠ v`).  The only number operand this code multiplies by is
`penaltyDays`, which is always at least `90`, so non-negative `ℕ` results
suffice. -/
def bigMulNum (a : ℕ) (q : ℚ) : Except JsError ℕ :=
  if (⌊q⌋ : ℚ) = q then .ok (a * (⌊q⌋).toNat) else .error .notAnInteger

/-- Number of iterations of the loop
`for (let day = beginDay; day < endDay; day += 1)`: an integer `k ≥ 0`
satisfies `beginDay + k < endDay` exactly when `k < ⌈endDay - beginDay⌉`. -/
def loopCount (beginDay endDay : ℚ) : ℕ := (⌈endDay - beginDay⌉).toNat

/-- The loop of `Utils.calcPayoutRewards`, with the iteration count made
explicit and `day` advancing by `1` each step.  Each iteration reads
`dailyPayoutData[day]`, computes
`dayPayoutTotal * stakeShares / dayStakeSharesTotal` and adds it to the
accumulator; errors abort the loop exactly as a thrown exception would. -/
def calcPayoutRewardsAux (dailyPayoutData : List DailyRecord) (stakeShares : ℕ) :
    ℚ → ℕ → Except JsError ℕ
  | _, 0 => .ok 0
  | day, n + 1 => do
    let dd ← getDay dailyPayoutData day
    let term ← bigDiv (dd.dayPayoutTotal * stakeShares) dd.dayStakeSharesTotal
    let rest ← calcPayoutRewardsAux dailyPayoutData stakeShares (day + 1) n
    .ok (term + rest)

/-- JS `Utils.calcPayoutRewards`: sums, for each day in
`[beginDay, endDay)`, the proportional reward
`dayPayoutTotal * stakeShares / dayStakeSharesTotal`. -/
def calcPayoutRewards (dailyPayoutData : List DailyRecord) (stakeShares : ℕ)
    (beginDay endDay : ℚ) : Except JsError ℕ :=
  calcPayoutRewardsAux dailyPayoutData stakeShares beginDay (loopCount beginDay endDay)

/-- JS `Utils.estimatePayoutRewardsDay`: the estimated reward of a single
day, the shares under evaluation added to the stored denominator (the
sampled day's pool total does not yet include those shares). -/
def estimatePayoutRewardsDay (dailyData : List DailyRecord) (stakeSharesParam : ℕ)
    (sampleDay : ℚ) : Except JsError ℕ := do
  let dd ← getDay dailyData sampleDay
  bigDiv (dd.dayPayoutTotal * stakeSharesParam) (dd.dayStakeSharesTotal + stakeSharesParam)

/-- JS constant `LATE_PENALTY_GRACE_DAYS`. -/
def LATE_PENALTY_GRACE_DAYS : ℕ := 14

/-- JS constant `LATE_PENALTY_SCALE_DAYS`. -/
def LATE_PENALTY_SCALE_DAYS : ℕ := 700

/-- JS constant `EARLY_PENALTY_MIN_DAYS`. -/
def EARLY_PENALTY_MIN_DAYS : ℕ := 90

/-- JS `Utils.calcLatePenalty`.  The divisor is the constant `700`, so the
big-integer zero-divisor branch is unreachable and the result is pure. -/
def calcLatePenalty (stakedDays unpooledDays rawStakeReturn : ℕ) : ℕ :=
  let effectiveStakedDays := stakedDays + LATE_PENALTY_GRACE_DAYS
  if unpooledDays ≤ effectiveStakedDays then 0
  else rawStakeReturn * (unpooledDays - effectiveStakedDays) / LATE_PENALTY_SCALE_DAYS

/-- The `penaltyDays` value computed by `Utils.calcPayoutAndEarlyPenalty`:
`stakedDays / 2 + (stakedDays % 2)`, clamped below at `90`.  JavaScript
evaluates `stakedDays / 2` with floating-point division, so for odd
`stakedDays` the value carries a fractional part `.5` — even though the
source comment announces "50% of stakedDays (rounded up)", a ceiling. -/
def penaltyDaysOf (stakedDays : ℕ) : ℚ :=
  let p : ℚ := (stakedDays : ℚ) / 2 + ((stakedDays % 2 : ℕ) : ℚ)
  if p < (EARLY_PENALTY_MIN_DAYS : ℚ) then (EARLY_PENALTY_MIN_DAYS : ℚ) else p

/-- Modelled from the spec: the integer penalty window the specification
describes, `max(ceil(stakedDays / 2), 90)`, for comparison with the value
the source actually computes (`penaltyDaysOf`). -/
def penaltyDaysSpec (stakedDays : ℕ) : ℕ :=
  max ((stakedDays + 1) / 2) EARLY_PENALTY_MIN_DAYS

/-- JS `Utils.calcPayoutAndEarlyPenalty`, returning `[payout, penalty]`. -/
def calcPayoutAndEarlyPenalty (dailyPayoutData : List DailyRecord)
    (pooledDay stakedDays servedDays stakeShares : ℕ) : Except JsError (ℕ × ℕ) :=
  let servedEndDay := pooledDay + servedDays
  let penaltyDays := penaltyDaysOf stakedDays
  if servedDays = 0 then do
    let expected ← estimatePayoutRewardsDay dailyPayoutData stakeShares ((pooledDay : ℚ) - 1)
    let penalty ← bigMulNum expected penaltyDays
    .ok (0, penalty)
  else if penaltyDays < (servedDays : ℚ) then do
    let penaltyEndDay : ℚ := (pooledDay : ℚ) + penaltyDays
    let penalty ← calcPayoutRewards dailyPayoutData stakeShares (pooledDay : ℚ) penaltyEndDay
    let delta ← calcPayoutRewards dailyPayoutData stakeShares penaltyEndDay (servedEndDay : ℚ)
    .ok (penalty + delta, penalty)
  else do
    let payout ← calcPayoutRewards dailyPayoutData stakeShares (pooledDay : ℚ) (servedEndDay : ℚ)
    if penaltyDays = (servedDays : ℚ) then
      .ok (payout, payout)
    else do
      let m ← bigMulNum payout penaltyDays
      let penalty ← bigDiv m servedDays
      .ok (payout, penalty)

/-- JS `Utils.calcStakeReturn`.  Two remarks on faithfulness:
* in the source, the late branch reads
  `payout = Utils.calcPayoutRewards(st.stakeShares, st.pooledDay, st.pooledDay + servedDays)`
  — the `dailyPayoutData` argument is missing, every argument shifts one
  position left and `endDay` is `undefined`, so the loop guard
  `day < undefined` is false immediately and the call returns `bigZero`;
  the branch is therefore embedded with that constant value `0`;
* `st.unpooledDay - st.pooledDay` can be negative in JavaScript, in which
  case `calcLatePenalty` takes its `unpooledDays ≤ stakedDays + 14` branch
  and returns `0`; truncating `Nat` subtraction feeds `0` instead, which is
  also `≤ stakedDays + 14`, so the result is the same. -/
def calcStakeReturn (dailyData : List DailyRecord) (st : StakeRecord)
    (servedDays : ℕ) : Except JsError ℕ := do
  let (stakeReturn, penalty) ←
    if servedDays < st.stakedDays then do
      let pp ← calcPayoutAndEarlyPenalty dailyData st.pooledDay st.stakedDays
        servedDays st.stakeShares
      .ok (st.stakedHearts + pp.1, pp.2)
    else
      let payout : ℕ := 0
      let stakeReturn := st.stakedHearts + payout
      .ok (stakeReturn,
        calcLatePenalty st.stakedDays (st.unpooledDay - st.pooledDay) stakeReturn)
  if penalty ≠ 0 then
    if penalty > stakeReturn then .ok 0
    else .ok (stakeReturn - penalty)
  else .ok stakeReturn

/-- The pre-capping stage of `Utils.calcStakeReturn`: the raw
`(stakeReturn, penalty)` pair the function builds before the final
`if (!bigZero.eq(penalty))` capping block runs. -/
def rawStakeReturnPenalty (dailyData : List DailyRecord) (st : StakeRecord)
    (servedDays : ℕ) : Except JsError (ℕ × ℕ) :=
  if servedDays < st.stakedDays then
    (calcPayoutAndEarlyPenalty dailyData st.pooledDay st.stakedDays
      servedDays st.stakeShares).map
      (fun pp => (st.stakedHearts + pp.1, pp.2))
  else
    let stakeReturn := st.stakedHearts + 0
    .ok (stakeReturn,
      calcLatePenalty st.stakedDays (st.unpooledDay - st.pooledDay) stakeReturn)

/-- One interface descriptor of `Utils.extractSimplifiedApi`'s `abi`
argument.  A descriptor may lack a `type` tag; field payloads pass through
untouched, so their type stays abstract. -/
structure AbiItem (α : Type) where
  type : Option String
  name : String
  inputs : List α
  outputs : List α

/-- The accumulator object `obj = { events: {}, functions: {} }` of
`Utils.extractSimplifiedApi`; JavaScript objects are modelled as insertion
ordered association lists. -/
structure SimplifiedApi (α : Type) where
  events : List (String × List α)
  functions : List (String × (List α × List α))
  deriving DecidableEq

/-- JavaScript object assignment `obj[k] = v`: replaces the value when the
key is already present, appends the pair otherwise. -/
def jsAssign {β : Type} (l : List (String × β)) (k : String) (v : β) :
    List (String × β) :=
  if l.any (fun p => p.1 == k) then
    l.map (fun p => if p.1 == k then (k, v) else p)
  else l ++ [(k, v)]

/-- JS `eventRelevant`: `!relevantEvents || relevantEvents.indexOf(evtName) > -1`.
An absent (`null`/`undefined`) allow-list is falsy and admits every name;
an empty array is truthy in JavaScript and admits none. -/
def eventRelevant (relevantEvents : Option (List String)) (evtName : String) : Bool :=
  match relevantEvents with
  | none => true
  | some l => l.contains evtName

/-- JS `functionRelevant`, same shape as `eventRelevant`. -/
def functionRelevant (relevantFunctions : Option (List String)) (fnName : String) : Bool :=
  match relevantFunctions with
  | none => true
  | some l => l.contains fnName

/-- The body of the `abi.map` callback in `Utils.extractSimplifiedApi`.
The source guard is `item.type && item.type === 'event' && ...`; the only
extra values the truthiness test `item.type &&` rejects (`undefined`, the
empty string) already fail the `=== 'event'` comparison, so the equality
test alone is extensionally faithful. -/
def extractStep {α : Type} (relevantEvents relevantFunctions : Option (List String))
    (acc : SimplifiedApi α) (item : AbiItem α) : SimplifiedApi α :=
  if item.type = some "event" ∧ eventRelevant relevantEvents item.name = true then
    { acc with events := jsAssign acc.events item.name item.inputs }
  else if item.type = some "function" ∧ functionRelevant relevantFunctions item.name = true then
    { acc with functions := jsAssign acc.functions item.name (item.inputs, item.outputs) }
  else acc

/-- The traversal of `abi` performed by `Utils.extractSimplifiedApi`
(the source uses `abi.map` purely for iteration and discards its result). -/
def extractGo {α : Type} (relevantEvents relevantFunctions : Option (List String)) :
    List (AbiItem α) → SimplifiedApi α → SimplifiedApi α
  | [], acc => acc
  | item :: rest, acc =>
    extractGo relevantEvents relevantFunctions rest
      (extractStep relevantEvents relevantFunctions acc item)

/-- JS `Utils.extractSimplifiedApi`. -/
def extractSimplifiedApi {α : Type} (abi : List (AbiItem α))
    (relevantEvents relevantFunctions : Option (List String)) : SimplifiedApi α :=
  extractGo relevantEvents relevantFunctions abi ⟨[], []⟩

/-- Reduction of `Except` bind on a success value. -/
@[simp] theorem ok_bind {ε α β : Type} (a : α) (f : α → Except ε β) :
    (Except.ok a >>= f : Except ε β) = f a := rfl

/-- Reduction of `Except` bind on an error value. -/
@[simp] theorem error_bind {ε α β : Type} (e : ε) (f : α → Except ε β) :
    (Except.error e >>= f : Except ε β) = .error e := rfl

/-- Reduction of `Except.map` on a success value. -/
@[simp] theorem map_ok {ε α β : Type} (f : α → β) (a : α) :
    (Except.ok a : Except ε α).map f = .ok (f a) := rfl

/-- Reduction of `Except.map` on an error value. -/
@[simp] theorem map_error {ε α β : Type} (f : α → β) (e : ε) :
    (Except.error e : Except ε α).map f = .error e := rfl

/-- At a natural index, `getDay` is a plain guarded list lookup. -/
theorem getDay_natCast (d : List DailyRecord) (k : ℕ) :
    getDay d (k : ℚ) =
      if h : k < d.length then .ok (d.get ⟨k, h⟩) else .error .typeError := by
  simp only [getDay, Int.floor_natCast, Int.toNat_natCast, Int.cast_natCast,
    Nat.cast_nonneg, eq_self_iff_true, true_and]

/-- At natural bounds, the loop runs `e - b` times. -/
theorem loopCount_natCast (b e : ℕ) : loopCount (b : ℚ) (e : ℚ) = e - b := by
  rw [loopCount, show ((e : ℚ) - b) = (((e : ℤ) - b : ℤ) : ℚ) by push_cast; ring,
    Int.ceil_intCast]
  omega

/-- Stepping the loop counter commutes with the cast from `ℕ` to `ℚ`. -/
theorem natCast_add_one (b : ℕ) : (b : ℚ) + 1 = ((b + 1 : ℕ) : ℚ) := by
  push_cast
  ring

/-- At natural bounds, `calcPayoutRewards` is the loop run `e - b` times. -/
theorem calcPayoutRewards_natCast (d : List DailyRecord) (s b e : ℕ) :
    calcPayoutRewards d s (b : ℚ) (e : ℚ) = calcPayoutRewardsAux d s (b : ℚ) (e - b) := by
  rw [calcPayoutRewards, loopCount_natCast]

/-- When every day the loop will touch is in bounds with a nonzero share
total, the loop succeeds. -/
theorem aux_ok_of_valid (d : List DailyRecord) (s : ℕ) :
    ∀ (n b : ℕ),
      (∀ k, k < n →
        ∃ h : b + k < d.length, (d.get ⟨b + k, h⟩).dayStakeSharesTotal ≠ 0) →
      ∃ v, calcPayoutRewardsAux d s (b : ℚ) n = .ok v := by
  intro n
  induction n with
  | zero => exact fun b _ => ⟨0, rfl⟩
  | succ n ih =>
    intro b hvalid
    obtain ⟨hb, hnz⟩ := hvalid 0 (Nat.succ_pos n)
    simp only [Nat.add_zero] at hb hnz
    obtain ⟨v, hv⟩ := ih (b + 1) (fun k hk => by
      have h := hvalid (k + 1) (by omega)
      rw [show b + 1 + k = b + (k + 1) by omega]
      exact h)
    refine ⟨(d.get ⟨b, hb⟩).dayPayoutTotal * s / (d.get ⟨b, hb⟩).dayStakeSharesTotal + v, ?_⟩
    simp only [calcPayoutRewardsAux, getDay_natCast]
    rw [dif_pos hb]
    simp only [ok_bind]
    rw [bigDiv, if_neg hnz]
    simp only [ok_bind]
    rw [natCast_add_one, hv]
    rfl

/-- Splitting the loop: running `n + m` iterations from `b` is running `n`
iterations from `b` and then `m` iterations from `b + n`, the partial sums
adding up. -/
theorem aux_append (d : List DailyRecord) (s : ℕ) :
    ∀ (n m b A B : ℕ),
      calcPayoutRewardsAux d s (b : ℚ) n = .ok A →
      calcPayoutRewardsAux d s ((b + n : ℕ) : ℚ) m = .ok B →
      calcPayoutRewardsAux d s (b : ℚ) (n + m) = .ok (A + B) := by
  intro n
  induction n with
  | zero =>
    intro m b A B hA hB
    simp only [calcPayoutRewardsAux] at hA
    obtain rfl : (0 : ℕ) = A := by
      simpa using hA
    simpa [Nat.zero_add] using hB
  | succ n ih =>
    intro m b A B hA hB
    simp only [calcPayoutRewardsAux, getDay_natCast] at hA
    by_cases hb : b < d.length
    · rw [dif_pos hb] at hA
      simp only [ok_bind] at hA
      rw [bigDiv] at hA
      by_cases hz : (d.get ⟨b, hb⟩).dayStakeSharesTotal = 0
      · rw [if_pos hz] at hA
        simp at hA
      · rw [if_neg hz] at hA
        simp only [ok_bind] at hA
        rw [natCast_add_one] at hA
        cases hrest : calcPayoutRewardsAux d s ((b + 1 : ℕ) : ℚ) n with
        | error e => rw [hrest] at hA; simp at hA
        | ok A₁ =>
          rw [hrest] at hA
          simp only [ok_bind, Except.ok.injEq] at hA
          rw [show n + 1 + m = (n + m) + 1 by omega]
          simp only [calcPayoutRewardsAux, getDay_natCast]
          rw [dif_pos hb]
          simp only [ok_bind]
          rw [bigDiv, if_neg hz]
          simp only [ok_bind]
          rw [natCast_add_one]
          rw [ih m (b + 1) A₁ B hrest (by rw [show b + 1 + n = b + (n + 1) by omega]; exact hB)]
          simp only [ok_bind, Except.ok.injEq]
          omega
    · rw [dif_neg hb] at hA
      simp at hA

/-- When every day the loop will touch is in bounds but one of them has a
zero share total, the loop stops with the division-by-zero error. -/
theorem aux_error_div (d : List DailyRecord) (s : ℕ) :
    ∀ (n b : ℕ),
      (∀ k, k < n → b + k < d.length) →
      (∃ j, j < n ∧ ∃ h : b + j < d.length, (d.get ⟨b + j, h⟩).dayStakeSharesTotal = 0) →
      calcPayoutRewardsAux d s (b : ℚ) n = .error .divisionByZero := by
  intro n
  induction n with
  | zero =>
    intro b _ hbad
    obtain ⟨j, hj, _⟩ := hbad
    omega
  | succ n ih =>
    intro b hin hbad
    have hb : b < d.length := by have := hin 0 (Nat.succ_pos n); omega
    simp only [calcPayoutRewardsAux, getDay_natCast]
    rw [dif_pos hb]
    simp only [ok_bind]
    by_cases hz : (d.get ⟨b, hb⟩).dayStakeSharesTotal = 0
    · rw [bigDiv, if_pos hz]
      rfl
    · rw [bigDiv, if_neg hz]
      simp only [ok_bind]
      rw [natCast_add_one]
      rw [ih (b + 1) (fun k hk => by have := hin (k + 1) (by omega); omega) ?_]
      · rfl
      · obtain ⟨j, hj, hjlen, hjz⟩ := hbad
        match j, hj with
        | 0, _ =>
          exact absurd hjz (by simpa using hz)
        | j + 1, hj =>
          refine ⟨j, by omega, by omega, ?_⟩
          have : b + 1 + j = b + (j + 1) := by omega
          simp only [this]
          exact hjz

/-- When the days the loop touches have nonzero share totals as long as
they are in bounds, but some touched index is out of bounds, the loop stops
with the `TypeError` of the out-of-range access. -/
theorem aux_error_type (d : List DailyRecord) (s : ℕ) :
    ∀ (n b : ℕ),
      (∀ k (h : b + k < d.length), k < n → (d.get ⟨b + k, h⟩).dayStakeSharesTotal ≠ 0) →
      (∃ j, j < n ∧ d.length ≤ b + j) →
      calcPayoutRewardsAux d s (b : ℚ) n = .error .typeError := by
  intro n
  induction n with
  | zero =>
    intro b _ hbad
    obtain ⟨j, hj, _⟩ := hbad
    omega
  | succ n ih =>
    intro b hnz hbad
    simp only [calcPayoutRewardsAux, getDay_natCast]
    by_cases hb : b < d.length
    · rw [dif_pos hb]
      simp only [ok_bind]
      have hz : (d.get ⟨b, hb⟩).dayStakeSharesTotal ≠ 0 := by
        have := hnz 0 (by omega) (Nat.succ_pos n)
        simpa using this
      rw [bigDiv, if_neg hz]
      simp only [ok_bind]
      rw [natCast_add_one]
      rw [ih (b + 1) ?_ ?_]
      · rfl
      · intro k h hk
        have h2 : b + (k + 1) < d.length := by omega
        have := hnz (k + 1) h2 (by omega)
        have heq : b + 1 + k = b + (k + 1) := by omega
        simp only [heq]
        exact this
      · obtain ⟨j, hj, hjlen⟩ := hbad
        match j, hj with
        | 0, _ => omega
        | j + 1, hj => exact ⟨j, by omega, by omega⟩
    · rw [dif_neg hb]
      rfl

/-- When some day the loop will touch is bad — out of bounds or with a zero
share total — the loop ends in an error (it never silently returns a
value). -/
theorem aux_error_any (d : List DailyRecord) (s : ℕ) :
    ∀ (n b : ℕ),
      (∃ j, j < n ∧ (d.length ≤ b + j ∨
        ∃ h : b + j < d.length, (d.get ⟨b + j, h⟩).dayStakeSharesTotal = 0)) →
      ∃ err, calcPayoutRewardsAux d s (b : ℚ) n = .error err := by
  intro n
  induction n with
  | zero =>
    intro b hbad
    obtain ⟨j, hj, _⟩ := hbad
    omega
  | succ n ih =>
    intro b hbad
    simp only [calcPayoutRewardsAux, getDay_natCast]
    by_cases hb : b < d.length
    · rw [dif_pos hb]
      simp only [ok_bind]
      by_cases hz : (d.get ⟨b, hb⟩).dayStakeSharesTotal = 0
      · exact ⟨.divisionByZero, by rw [bigDiv, if_pos hz]; rfl⟩
      · rw [bigDiv, if_neg hz]
        simp only [ok_bind]
        rw [natCast_add_one]
        have hbad1 : ∃ j, j < n ∧ (d.length ≤ b + 1 + j ∨
            ∃ h : b + 1 + j < d.length, (d.get ⟨b + 1 + j, h⟩).dayStakeSharesTotal = 0) := by
          obtain ⟨j, hj, hcase⟩ := hbad
          match j, hj with
          | 0, _ =>
            rcases hcase with h | ⟨hlt, hzz⟩
            · omega
            · exact absurd hzz (by simpa using hz)
          | j + 1, hj =>
            refine ⟨j, by omega, ?_⟩
            have heq : b + 1 + j = b + (j + 1) := by omega
            rw [heq]
            exact hcase
        obtain ⟨err, herr⟩ := ih (b + 1) hbad1
        exact ⟨err, by rw [herr]; rfl⟩
    · exact ⟨.typeError, by rw [dif_neg hb]; rfl⟩

/-- C6: for every raw value below `2^256`, `decodeDay` splits it into the
high 128 bits (share total) and the low 128 bits (payout total), repacking
with shift and or restores the raw value, and `processDailyRangeData` is
the order-preserving element-wise map of `decodeDay`. -/
theorem C6_decode_roundtrip (r : ℕ) (hr : r < 2 ^ 256) :
    (decodeDay r).dayStakeSharesTotal = r >>> 128 ∧
    (decodeDay r).dayPayoutTotal = r &&& (2 ^ 128 - 1) ∧
    (((decodeDay r).dayStakeSharesTotal <<< 128) |||
      (decodeDay r).dayPayoutTotal) = r ∧
    ∀ data : List ℕ, processDailyRangeData data = data.map decodeDay := by
  refine ⟨rfl, rfl, ?_, fun data => rfl⟩
  show ((r >>> 128) <<< 128) ||| (r &&& (2 ^ 128 - 1)) = r
  rw [Nat.shiftRight_eq_div_pow, Nat.shiftLeft_eq, Nat.and_pow_two_sub_one_eq_mod,
    mul_comm]
  rw [← Nat.mul_add_lt_is_or (Nat.mod_lt _ (by positivity)) (r / 2 ^ 128)]
  exact Nat.div_add_mod r (2 ^ 128)

/-- Witness for C6 at a concrete 256-bit value. -/
theorem C6_decode_roundtrip_witness :
    (2 : ℕ) ^ 255 + 12345 < 2 ^ 256 ∧
    (((decodeDay (2 ^ 255 + 12345)).dayStakeSharesTotal <<< 128) |||
      (decodeDay (2 ^ 255 + 12345)).dayPayoutTotal) = 2 ^ 255 + 12345 :=
  ⟨by norm_num, (C6_decode_roundtrip (2 ^ 255 + 12345) (by norm_num)).2.2.1⟩

/-- C8: `calcLatePenalty` returns `0` inside the grace window
`stakedDays + 14` and otherwise scales the raw stake return linearly over
`700` days with floor division. -/
theorem C8_late_penalty_grace (stakedDays unpooledDays x : ℕ) :
    (unpooledDays ≤ stakedDays + 14 → calcLatePenalty stakedDays unpooledDays x = 0) ∧
    (stakedDays + 14 < unpooledDays →
      calcLatePenalty stakedDays unpooledDays x =
        x * (unpooledDays - (stakedDays + 14)) / 700) := by
  constructor
  · intro h
    simp only [calcLatePenalty, LATE_PENALTY_GRACE_DAYS, LATE_PENALTY_SCALE_DAYS]
    rw [if_pos h]
  · intro h
    simp only [calcLatePenalty, LATE_PENALTY_GRACE_DAYS, LATE_PENALTY_SCALE_DAYS]
    rw [if_neg (by omega)]

/-- Witness for C8: one point inside the grace window, one outside. -/
theorem C8_late_penalty_grace_witness :
    calcLatePenalty 3 17 123456 = 0 ∧ calcLatePenalty 0 714 700 = 700 := by
  constructor
  · exact (C8_late_penalty_grace 3 17 123456).1 (by norm_num)
  · rw [(C8_late_penalty_grace 0 714 700).2 (by norm_num)]

/-- C3: the claim says `penaltyDays = max(ceil(stakedDays / 2), 90)`, an
integer, and the source comment announces the same; but JavaScript
evaluates `stakedDays / 2` as floating-point division, so at
`stakedDays = 179` the code's value is `90.5`, not the integer `90`, and
big-integer rejects it as a multiplier. -/
theorem C3_penalty_days_float_division_bug :
    penaltyDaysOf 179 = (181 : ℚ) / 2 ∧
    penaltyDaysSpec 179 = 90 ∧
    penaltyDaysOf 179 ≠ ((penaltyDaysSpec 179 : ℕ) : ℚ) ∧
    (⌊penaltyDaysOf 179⌋ : ℚ) ≠ penaltyDaysOf 179 ∧
    bigMulNum 1 (penaltyDaysOf 179) = .error .notAnInteger := by
  have h : penaltyDaysOf 179 = (181 : ℚ) / 2 := by
    norm_num [penaltyDaysOf, EARLY_PENALTY_MIN_DAYS]
  have hspec : penaltyDaysSpec 179 = 90 := by
    norm_num [penaltyDaysSpec, EARLY_PENALTY_MIN_DAYS]
  have hfloor : ⌊penaltyDaysOf 179⌋ = 90 := by
    rw [h, Int.floor_eq_iff] <;> norm_num
  refine ⟨h, hspec, ?_, ?_, ?_⟩
  · rw [h, hspec]
    norm_num
  · rw [hfloor, h]
    norm_num
  · rw [bigMulNum, if_neg]
    rw [hfloor, h]
    norm_num

/-- C9: with `servedDays = 0` the claim says the code returns `payout = 0`
and `penalty = estimateSingleDay(dailyData, stakeShares, pooledDay - 1)`
multiplied by the integer window `max(ceil(stakedDays / 2), 90)`; the
single-day estimate (with the shares added to the denominator) is indeed
what the code computes, but at `stakedDays = 181` the fractional
`penaltyDays` from the float-division slip makes the multiplication throw
instead of returning `estimate * 91`. -/
theorem C9_served_zero_estimate_bug :
    estimatePayoutRewardsDay [⟨1000, 100⟩] 1000 ((1 : ℚ) - 1) = .ok 50 ∧
    penaltyDaysSpec 181 = 91 ∧
    calcPayoutAndEarlyPenalty [⟨1000, 100⟩] 1 181 0 1000 = .error .notAnInteger ∧
    calcPayoutAndEarlyPenalty [⟨1000, 100⟩] 1 181 0 1000 ≠ .ok (0, 50 * 91) := by
  refine ⟨?_, ?_, ?_, ?_⟩
  · norm_num [estimatePayoutRewardsDay, getDay, bigDiv]
  · norm_num [penaltyDaysSpec, EARLY_PENALTY_MIN_DAYS]
  · norm_num [calcPayoutAndEarlyPenalty, penaltyDaysOf, EARLY_PENALTY_MIN_DAYS,
      estimatePayoutRewardsDay, getDay, bigDiv, bigMulNum]
  · rw [show calcPayoutAndEarlyPenalty [⟨1000, 100⟩] 1 181 0 1000 = .error .notAnInteger by
      norm_num [calcPayoutAndEarlyPenalty, penaltyDaysOf, EARLY_PENALTY_MIN_DAYS,
        estimatePayoutRewardsDay, getDay, bigDiv, bigMulNum]]
    simp

/-- C1: on the late-exit branch the claim (and Scenario A) say
`payout = accumulate(pooledDay, pooledDay + servedDays)` — `50` here — and
a final result of `50`; but the source calls the accumulator with its
arguments shifted one slot left (`endDay` is `undefined`), so the loop body
never runs, the raw pair is `(0 + 0, 0)` and the result is `0`. -/
theorem C1_late_branch_miscall :
    calcStakeReturn [⟨1000, 100⟩] ⟨0, 1, 10, 500, 0⟩ 1 = .ok 0 ∧
    rawStakeReturnPenalty [⟨1000, 100⟩] ⟨0, 1, 10, 500, 0⟩ 1 = .ok (0, 0) ∧
    calcPayoutRewards [⟨1000, 100⟩] 500 0 1 = .ok 50 ∧
    calcStakeReturn [⟨1000, 100⟩] ⟨0, 1, 10, 500, 0⟩ 1 ≠ .ok 50 := by
  have h : calcStakeReturn [⟨1000, 100⟩] ⟨0, 1, 10, 500, 0⟩ 1 = .ok 0 := by
    norm_num [calcStakeReturn, calcLatePenalty, LATE_PENALTY_GRACE_DAYS]
  refine ⟨h, ?_, ?_, ?_⟩
  · norm_num [rawStakeReturnPenalty, calcLatePenalty, LATE_PENALTY_GRACE_DAYS]
  · norm_num [calcPayoutRewards, loopCount, calcPayoutRewardsAux, getDay, bigDiv]
  · rw [h]
    simp

/-- C7: on a valid range (every day in `[b, e)` in bounds with nonzero
share total) the accumulator is interval-additive at any interior split
point. -/
theorem C7_accumulate_additive (d : List DailyRecord) (s b m e : ℕ)
    (hbm : b < m) (hme : m < e)
    (hvalid : ∀ k, b ≤ k → k < e →
      ∃ h : k < d.length, (d.get ⟨k, h⟩).dayStakeSharesTotal ≠ 0) :
    ∃ A B, calcPayoutRewards d s (b : ℚ) (m : ℚ) = .ok A ∧
      calcPayoutRewards d s (m : ℚ) (e : ℚ) = .ok B ∧
      calcPayoutRewards d s (b : ℚ) (e : ℚ) = .ok (A + B) := by
  obtain ⟨A, hA⟩ := aux_ok_of_valid d s (m - b) b
    (fun k hk => hvalid (b + k) (by omega) (by omega))
  obtain ⟨B, hB⟩ := aux_ok_of_valid d s (e - m) m
    (fun k hk => hvalid (m + k) (by omega) (by omega))
  refine ⟨A, B, ?_, ?_, ?_⟩
  · rw [calcPayoutRewards_natCast]
    exact hA
  · rw [calcPayoutRewards_natCast]
    exact hB
  · rw [calcPayoutRewards_natCast, show e - b = (m - b) + (e - m) by omega]
    exact aux_append d s (m - b) (e - m) b A B hA
      (by rw [show b + (m - b) = m by omega]; exact hB)

/-- Witness for C7 on a three-day range split after the first day. -/
theorem C7_accumulate_additive_witness :
    ∃ A B,
      calcPayoutRewards [⟨2, 10⟩, ⟨5, 20⟩, ⟨4, 40⟩] 2 ((0 : ℕ) : ℚ) ((1 : ℕ) : ℚ) = .ok A ∧
      calcPayoutRewards [⟨2, 10⟩, ⟨5, 20⟩, ⟨4, 40⟩] 2 ((1 : ℕ) : ℚ) ((3 : ℕ) : ℚ) = .ok B ∧
      calcPayoutRewards [⟨2, 10⟩, ⟨5, 20⟩, ⟨4, 40⟩] 2 ((0 : ℕ) : ℚ) ((3 : ℕ) : ℚ) =
        .ok (A + B) :=
  C7_accumulate_additive [⟨2, 10⟩, ⟨5, 20⟩, ⟨4, 40⟩] 2 0 1 3 (by norm_num) (by norm_num)
    (fun k _ hk => ⟨by simpa using hk, by interval_cases k <;> simp⟩)

/-- C4, counterexample: with `beginDay > endDay` the accumulator does not
fail with any error — the loop simply never runs and it returns `0`. -/
theorem C4_counterexample_begin_gt_end :
    calcPayoutRewards [] 5 3 1 = .ok 0 ∧ ∀ err, calcPayoutRewards [] 5 3 1 ≠ .error err := by
  have h : calcPayoutRewards [] 5 3 1 = .ok 0 := by
    norm_num [calcPayoutRewards, loopCount, calcPayoutRewardsAux]
  exact ⟨h, fun err herr => by rw [h] at herr; exact Except.noConfusion herr⟩

/-- C4, amended: a zero share total inside an in-bounds range raises the
division-by-zero error; an out-of-range index (with the in-bounds prefix
clean) raises the `TypeError` of the undefined access; any bad day in a
forward range means the call ends in an error rather than a value; but
`beginDay > endDay` yields `0` without error. -/
theorem C4_accumulate_error_conditions (d : List DailyRecord) (s b e : ℕ) :
    (b ≤ e → e ≤ d.length →
      (∃ k, ∃ h : k < d.length, b ≤ k ∧ k < e ∧ (d.get ⟨k, h⟩).dayStakeSharesTotal = 0) →
      calcPayoutRewards d s (b : ℚ) (e : ℚ) = .error .divisionByZero) ∧
    (b < e → d.length < e →
      (∀ k (h : k < d.length), b ≤ k → (d.get ⟨k, h⟩).dayStakeSharesTotal ≠ 0) →
      calcPayoutRewards d s (b : ℚ) (e : ℚ) = .error .typeError) ∧
    (b < e →
      (∃ k, b ≤ k ∧ k < e ∧ (d.length ≤ k ∨
        ∃ h : k < d.length, (d.get ⟨k, h⟩).dayStakeSharesTotal = 0)) →
      ∃ err, calcPayoutRewards d s (b : ℚ) (e : ℚ) = .error err) ∧
    (e < b → calcPayoutRewards d s (b : ℚ) (e : ℚ) = .ok 0) := by
  refine ⟨?_, ?_, ?_, ?_⟩
  · intro hbe hlen hbad
    rw [calcPayoutRewards_natCast]
    obtain ⟨k, hk, hbk, hke, hz⟩ := hbad
    refine aux_error_div d s (e - b) b (fun j hj => by omega) ⟨k - b, by omega, ?_⟩
    rw [show b + (k - b) = k by omega]
    exact ⟨hk, hz⟩
  · intro hbe hlen hnz
    rw [calcPayoutRewards_natCast]
    refine aux_error_type d s (e - b) b (fun k h _ => hnz (b + k) h (by omega))
      ⟨d.length - b, by omega, by omega⟩
  · intro hbe hbad
    rw [calcPayoutRewards_natCast]
    obtain ⟨k, hbk, hke, hcase⟩ := hbad
    refine aux_error_any d s (e - b) b ⟨k - b, by omega, ?_⟩
    rw [show b + (k - b) = k by omega]
    exact hcase
  · intro heb
    rw [calcPayoutRewards_natCast, show e - b = 0 by omega]
    rfl

/-- Witness for C4 at concrete ranges: a zero-share day, an out-of-bounds
range, a bad day yielding some error, and a reversed range yielding `0`. -/
theorem C4_accumulate_error_conditions_witness :
    calcPayoutRewards [⟨1, 5⟩, ⟨0, 7⟩] 3 ((0 : ℕ) : ℚ) ((2 : ℕ) : ℚ) =
        .error .divisionByZero ∧
    calcPayoutRewards [⟨1, 5⟩] 3 ((0 : ℕ) : ℚ) ((2 : ℕ) : ℚ) = .error .typeError ∧
    (∃ err, calcPayoutRewards [⟨1, 5⟩, ⟨0, 7⟩] 3 ((0 : ℕ) : ℚ) ((2 : ℕ) : ℚ) = .error err) ∧
    calcPayoutRewards [⟨1, 5⟩] 3 ((4 : ℕ) : ℚ) ((2 : ℕ) : ℚ) = .ok 0 := by
  refine ⟨?_, ?_, ?_, ?_⟩
  · exact (C4_accumulate_error_conditions [⟨1, 5⟩, ⟨0, 7⟩] 3 0 2).1 (by norm_num)
      (by norm_num) ⟨1, by norm_num, by norm_num, by norm_num, rfl⟩
  · exact (C4_accumulate_error_conditions [⟨1, 5⟩] 3 0 2).2.1 (by norm_num) (by norm_num)
      (fun k h _ => by
        simp only [List.length_cons, List.length_nil] at h
        interval_cases k <;> simp)
  · exact (C4_accumulate_error_conditions [⟨1, 5⟩, ⟨0, 7⟩] 3 0 2).2.2.1 (by norm_num)
      ⟨1, by norm_num, by norm_num, Or.inr ⟨by norm_num, rfl⟩⟩
  · exact (C4_accumulate_error_conditions [⟨1, 5⟩] 3 4 2).2.2.2 (by norm_num)

/-- `calcStakeReturn` is the capping block applied to the raw
`(stakeReturn, penalty)` pair: result `stakeReturn` when the penalty is
zero, `0` when the penalty exceeds the return, the difference otherwise. -/
theorem calcStakeReturn_eq_cap (d : List DailyRecord) (st : StakeRecord)
    (servedDays sr pen : ℕ)
    (hraw : rawStakeReturnPenalty d st servedDays = .ok (sr, pen)) :
    calcStakeReturn d st servedDays =
      .ok (if pen = 0 then sr else if sr < pen then 0 else sr - pen) := by
  by_cases hearly : servedDays < st.stakedDays
  · rw [rawStakeReturnPenalty, if_pos hearly] at hraw
    cases hE : calcPayoutAndEarlyPenalty d st.pooledDay st.stakedDays
        servedDays st.stakeShares with
    | error e =>
      rw [hE] at hraw
      simp at hraw
    | ok pp =>
      rw [hE] at hraw
      simp only [map_ok, Except.ok.injEq, Prod.mk.injEq] at hraw
      obtain ⟨h1, h2⟩ := hraw
      simp only [calcStakeReturn]
      rw [if_pos hearly, hE]
      simp only [ok_bind]
      rw [h1, h2]
      split_ifs <;> simp only [Except.ok.injEq] <;> omega
  · rw [rawStakeReturnPenalty, if_neg hearly] at hraw
    simp only [Except.ok.injEq, Prod.mk.injEq] at hraw
    obtain ⟨h1, h2⟩ := hraw
    rw [h1] at h2
    simp only [calcStakeReturn]
    rw [if_neg hearly]
    simp only [ok_bind]
    rw [h1, h2]
    split_ifs <;> simp only [Except.ok.injEq] <;> omega

/-- C2, counterexample: on the early-exit branch with `servedDays = 0` the
claim says the result is `stakedHearts + payout = 10000 + 0`; the code
subtracts the early penalty `4500` through the capping block and returns
`5500`. -/
theorem C2_counterexample_early_penalty_subtracted :
    calcPayoutAndEarlyPenalty [⟨1000, 100⟩] 1 1 0 1000 = .ok (0, 4500) ∧
    calcStakeReturn [⟨1000, 100⟩] ⟨1, 1, 0, 1000, 10000⟩ 0 = .ok 5500 ∧
    (5500 : ℕ) ≠ 10000 + 0 := by
  refine ⟨?_, ?_, by norm_num⟩
  · norm_num [calcPayoutAndEarlyPenalty, penaltyDaysOf, EARLY_PENALTY_MIN_DAYS,
      estimatePayoutRewardsDay, getDay, bigDiv, bigMulNum,
      show Int.toNat 90 = 90 from rfl]
  · norm_num [calcStakeReturn, calcPayoutAndEarlyPenalty, penaltyDaysOf,
      EARLY_PENALTY_MIN_DAYS, estimatePayoutRewardsDay, getDay, bigDiv, bigMulNum,
      show Int.toNat 90 = 90 from rfl]

/-- C2, amended: on the early-exit branch the result is
`stakedHearts + payout` with the early penalty then applied by the shared
capping block — unchanged only when the penalty is zero, clamped to `0`
when the penalty exceeds it, reduced by the penalty otherwise. -/
theorem C2_early_exit_penalty_applied (d : List DailyRecord) (st : StakeRecord)
    (servedDays payout penalty : ℕ)
    (hearly : servedDays < st.stakedDays)
    (hok : calcPayoutAndEarlyPenalty d st.pooledDay st.stakedDays servedDays st.stakeShares
      = .ok (payout, penalty)) :
    calcStakeReturn d st servedDays =
      .ok (if penalty = 0 then st.stakedHearts + payout
        else if st.stakedHearts + payout < penalty then 0
        else st.stakedHearts + payout - penalty) :=
  calcStakeReturn_eq_cap d st servedDays (st.stakedHearts + payout) penalty
    (by rw [rawStakeReturnPenalty, if_pos hearly, hok]; rfl)

/-- Witness for C2's amended statement at a concrete early exit. -/
theorem C2_early_exit_penalty_applied_witness :
    calcStakeReturn [⟨1000, 100⟩] ⟨1, 2, 0, 1000, 10000⟩ 0 = .ok 5500 := by
  have h := C2_early_exit_penalty_applied [⟨1000, 100⟩] ⟨1, 2, 0, 1000, 10000⟩ 0 0 4500
    (by norm_num)
    (by norm_num [calcPayoutAndEarlyPenalty, penaltyDaysOf, EARLY_PENALTY_MIN_DAYS,
      estimatePayoutRewardsDay, getDay, bigDiv, bigMulNum,
      show Int.toNat 90 = 90 from rfl])
  rw [h]
  norm_num

/-- C5: whenever the raw pre-capping pair `(stakeReturn, penalty)` is
produced, the final result is `max 0 (stakeReturn - penalty)` computed over
`ℤ` — exactly `0` when the penalty exceeds the return, the truncating
difference otherwise — and every returned amount is non-negative. -/
theorem C5_non_negative_return (d : List DailyRecord) (st : StakeRecord)
    (servedDays sr pen : ℕ)
    (hraw : rawStakeReturnPenalty d st servedDays = .ok (sr, pen)) :
    calcStakeReturn d st servedDays = .ok ((max 0 ((sr : ℤ) - (pen : ℤ))).toNat) ∧
    (sr < pen → calcStakeReturn d st servedDays = .ok 0) ∧
    (pen ≤ sr → calcStakeReturn d st servedDays = .ok (sr - pen)) ∧
    ∀ r, calcStakeReturn d st servedDays = .ok r → 0 ≤ (r : ℤ) := by
  have h := calcStakeReturn_eq_cap d st servedDays sr pen hraw
  refine ⟨?_, ?_, ?_, fun r _ => Int.natCast_nonneg r⟩
  · rw [h]
    congr 1
    split_ifs <;> omega
  · intro hlt
    rw [h, if_neg (by omega), if_pos hlt]
  · intro hle
    rw [h]
    split_ifs <;> simp only [Except.ok.injEq] <;> omega

/-- Witness for C5 on a late exit whose penalty exceeds the return. -/
theorem C5_non_negative_return_witness :
    rawStakeReturnPenalty [] ⟨0, 1, 800, 77, 1000⟩ 1 = .ok (1000, 1121) ∧
    calcStakeReturn [] ⟨0, 1, 800, 77, 1000⟩ 1 = .ok 0 := by
  have hraw : rawStakeReturnPenalty [] ⟨0, 1, 800, 77, 1000⟩ 1 = .ok (1000, 1121) := by
    norm_num [rawStakeReturnPenalty, calcLatePenalty, LATE_PENALTY_GRACE_DAYS,
      LATE_PENALTY_SCALE_DAYS]
  exact ⟨hraw, (C5_non_negative_return [] ⟨0, 1, 800, 77, 1000⟩ 1 1000 1121 hraw).2.1
    (by norm_num)⟩

/-- With an empty events allow-list no item can update the events mapping. -/
theorem extractGo_events_of_empty_allow {α : Type} (rf : Option (List String)) :
    ∀ (l : List (AbiItem α)) (acc : SimplifiedApi α),
      (extractGo (some []) rf l acc).events = acc.events := by
  intro l
  induction l with
  | nil => exact fun acc => rfl
  | cons item rest ih =>
    intro acc
    rw [extractGo, ih, extractStep]
    rw [if_neg (by simp [eventRelevant])]
    split
    · rfl
    · rfl

/-- With an empty functions allow-list no item can update the functions
mapping. -/
theorem extractGo_functions_of_empty_allow {α : Type} (re : Option (List String)) :
    ∀ (l : List (AbiItem α)) (acc : SimplifiedApi α),
      (extractGo re (some []) l acc).functions = acc.functions := by
  intro l
  induction l with
  | nil => exact fun acc => rfl
  | cons item rest ih =>
    intro acc
    rw [extractGo, ih, extractStep]
    split
    · rfl
    · rw [if_neg (by simp [functionRelevant])]

/-- Items tagged neither `event` nor `function` never change the
accumulator, so filtering them away leaves the traversal's result
unchanged. -/
theorem extractGo_filter_event_function {α : Type} (re rf : Option (List String)) :
    ∀ (l : List (AbiItem α)) (acc : SimplifiedApi α),
      extractGo re rf (l.filter fun item =>
        item.type == some "event" || item.type == some "function") acc =
      extractGo re rf l acc := by
  intro l
  induction l with
  | nil => exact fun acc => rfl
  | cons item rest ih =>
    intro acc
    by_cases hty : (item.type == some "event" || item.type == some "function") = true
    · rw [List.filter_cons, if_pos hty, extractGo, extractGo, ih]
    · rw [List.filter_cons, if_neg hty, ih, extractGo]
      simp only [Bool.or_eq_true, beq_iff_eq] at hty
      push_neg at hty
      congr 1
      rw [extractStep, if_neg (fun hc => hty.1 hc.1), if_neg (fun hc => hty.2 hc.1)]

/-- C10: an empty allow-list (unlike an absent one) empties the
corresponding output mapping, and descriptors tagged neither `event` nor
`function` (or untagged) contribute to neither mapping, whatever the
allow-lists. -/
theorem C10_extract_api_filtering {α : Type} (abi : List (AbiItem α))
    (re rf : Option (List String)) :
    (extractSimplifiedApi abi (some []) rf).events = [] ∧
    (extractSimplifiedApi abi re (some [])).functions = [] ∧
    extractSimplifiedApi (abi.filter fun item =>
      item.type == some "event" || item.type == some "function") re rf =
      extractSimplifiedApi abi re rf :=
  ⟨extractGo_events_of_empty_allow rf abi ⟨[], []⟩,
   extractGo_functions_of_empty_allow re abi ⟨[], []⟩,
   extractGo_filter_event_function re rf abi ⟨[], []⟩⟩

end WalletUtils
